import Mathlib

/-!
Verification development for the `plates` interpreter
(tokenizer `src/lexer.rs`, recursive-descent parser `src/parser.rs`,
trampolined stack-machine runtime `src/runtime.rs`).

Rust strings are modelled as `List Char`; Rust byte slices `&s[i..]` /
`&s[..i]` are modelled by `sliceFrom` / `sliceTo`, which return `none`
exactly when the Rust slice would panic (index out of bounds or not on a
UTF-8 character boundary).  A panic is propagated as an explicit outcome,
distinct from a syntax error.

Rust `Vec` stacks (`value_stack`, `instruction_stack`) are modelled as
Lean lists with the HEAD as the top of the stack (the last element of the
Rust `Vec` is its top), so `Vec::push`/`Vec::pop` become list cons/uncons.
-/

set_option maxHeartbeats 1000000

namespace Plates

/-! ## Characters and byte slicing -/

/-- Number of bytes of the UTF-8 encoding of a character (Rust `char::len_utf8`). -/
def byteLen (c : Char) : Nat :=
  if c.toNat < 0x80 then 1
  else if c.toNat < 0x800 then 2
  else if c.toNat < 0x10000 then 3
  else 4

/-- Rust byte slice `&s[i..]`: `none` models the panic on an out-of-bounds
index or an index that is not a character boundary. -/
def sliceFrom : List Char → Nat → Option (List Char)
  | s, 0 => some s
  | [], _ + 1 => none
  | c :: cs, i + 1 =>
    if byteLen c ≤ i + 1 then sliceFrom cs (i + 1 - byteLen c) else none

/-- Rust byte slice `&s[..i]`: `none` models the panic on an out-of-bounds
index or an index that is not a character boundary. -/
def sliceTo : List Char → Nat → Option (List Char)
  | _, 0 => some []
  | [], _ + 1 => none
  | c :: cs, i + 1 =>
    if byteLen c ≤ i + 1 then
      (sliceTo cs (i + 1 - byteLen c)).map (fun r => c :: r)
    else none

/-- Length of the longest prefix whose characters all satisfy `p`
(the index of the first character failing `p`). -/
def countLeading (p : Char → Bool) : List Char → Nat
  | [] => 0
  | c :: cs => if p c then countLeading p cs + 1 else 0

/-- Rust `char::is_whitespace`: the Unicode `White_Space` property
(this is the full, exact code-point list). -/
def charIsWhitespace (c : Char) : Bool :=
  (9 ≤ c.toNat && c.toNat ≤ 13) || c.toNat = 32 || c.toNat = 0x85 ||
  c.toNat = 0xA0 || c.toNat = 0x1680 ||
  (0x2000 ≤ c.toNat && c.toNat ≤ 0x200A) ||
  c.toNat = 0x2028 || c.toNat = 0x2029 || c.toNat = 0x202F ||
  c.toNat = 0x205F || c.toNat = 0x3000

/-- Rust `char::is_ascii_digit`. -/
def charIsAsciiDigit (c : Char) : Bool :=
  48 ≤ c.toNat && c.toNat ≤ 57

/-- Rust `char::is_alphabetic` (Unicode `Alphabetic`), modelled on the
ASCII range where it coincides with `[A-Za-z]`; non-ASCII alphabetic
characters are outside the modelled input domain (theorems about the
lexer that quantify over inputs carry an ASCII hypothesis). -/
def charIsAlphabetic (c : Char) : Bool :=
  (65 ≤ c.toNat && c.toNat ≤ 90) || (97 ≤ c.toNat && c.toNat ≤ 122)

/-- Rust `char::is_numeric` (Unicode `Number`), modelled on the ASCII
range where it coincides with `[0-9]`. -/
def charIsNumeric (c : Char) : Bool :=
  charIsAsciiDigit c

/-- Rust `char::is_alphanumeric` = `is_alphabetic || is_numeric`. -/
def charIsAlphanumeric (c : Char) : Bool :=
  charIsAlphabetic c || charIsNumeric c

/-! ## Lexer data model (`src/lexer.rs`) -/

/-- `lexer.rs` `enum Token`. -/
inductive Token where
  | Push
  | Defn
  | CallIf
  | Exit
  | Asterisk
  | LeftCurlyBracket
  | RightCurlyBracket
  | FunctionName (text : String)
  | Word (n : Nat)
  | LeftParen
  | RightParen
  | Argument (index : Nat)
deriving DecidableEq, Repr

/-- Structured form of the lexer's `Syntax error:` messages. -/
inductive SynErr where
  /-- `Syntax error: Unexpected character 'c'.` -/
  | unexpectedChar (c : Char)
  /-- `Syntax error: Invalid word 'text'.` -/
  | invalidWord (text : List Char)
deriving DecidableEq, Repr

/-- Abnormal outcome of one lexer step: a Rust panic (string-slice abort),
fuel exhaustion of the model (unreachable for real runs), or a syntax
error. -/
inductive LexErr where
  | panicked
  | fuelStop
  | syn (e : SynErr)
deriving DecidableEq, Repr

/-- Rust `str::parse::<u32>`: optional leading `+`, one or more ASCII
digits, value below `2^32`; anything else is a parse error (`none`). -/
def parseU32core (ds : List Char) : Option Nat :=
  if ds = [] then none
  else if ds.all charIsAsciiDigit then
    let v := ds.foldl (fun a c => 10 * a + (c.toNat - 48)) 0
    if v < 4294967296 then some v else none
  else none

/-- Rust `str::parse::<u32>` including the optional leading `+` sign. -/
def parseU32 (s : List Char) : Option Nat :=
  match s with
  | c :: rest => if c = '+' then parseU32core rest else parseU32core s
  | [] => parseU32core []

/-- `lexer.rs` `consume_whitespace`: `i` starts at 1 and counts characters
while they are whitespace; returns `&source[i..]` (a byte slice at a
character count, which panics on multi-byte whitespace). -/
def consumeWhitespace (source : List Char) : Except LexErr (List Char) :=
  let i := 1 + countLeading charIsWhitespace (source.drop 1)
  match sliceFrom source i with
  | none => .error .panicked
  | some r => .ok r

/-- `lexer.rs` `consume_base10_int`: `i` starts at 1 and counts characters
while they are ASCII digits; parses `&source[..i]` and returns the value
with `&source[i..]`. -/
def consumeBase10Int (source : List Char) :
    Except LexErr (Nat × List Char) :=
  let i := 1 + countLeading charIsAsciiDigit (source.drop 1)
  match sliceTo source i with
  | none => .error .panicked
  | some pre =>
    match parseU32 pre with
    | none => .error (.syn (.invalidWord pre))
    | some n =>
      match sliceFrom source i with
      | none => .error .panicked
      | some post => .ok (n, post)

/-- `lexer.rs` `consume_word`. -/
def consumeWord (source : List Char) :
    Except LexErr (Option Token × List Char) :=
  match consumeBase10Int source with
  | .error e => .error e
  | .ok (n, updated) => .ok (some (.Word n), updated)

/-- `lexer.rs` `get_symbol`: splits at the first character that is not
alphanumeric and not `_` (byte slices at a character index); if every
character qualifies, returns `(source, "")` without slicing. -/
def getSymbol (source : List Char) : Option (List Char × List Char) :=
  let i := countLeading (fun c => charIsAlphanumeric c || c = '_') source
  if i = source.length then some (source, [])
  else
    match sliceTo source i, sliceFrom source i with
    | some a, some b => some (a, b)
    | _, _ => none

/-- `lexer.rs` `consume_symbol`: keyword match on the symbol text,
otherwise a `FunctionName` token. -/
def consumeSymbol (source : List Char) :
    Except LexErr (Option Token × List Char) :=
  match getSymbol source with
  | none => .error .panicked
  | some (symbol, updated) =>
    if String.mk symbol = "PUSH" then .ok (some .Push, updated)
    else if String.mk symbol = "DEFN" then .ok (some .Defn, updated)
    else if String.mk symbol = "CALLIF" then .ok (some .CallIf, updated)
    else if String.mk symbol = "EXIT" then .ok (some .Exit, updated)
    else .ok (some (.FunctionName (String.mk symbol)), updated)

/-- `lexer.rs` `consume_argument`: skip the `$`, then `consume_base10_int`
(the `usize::try_from` on a `u32` cannot fail on a 64-bit host). -/
def consumeArgument (source : List Char) :
    Except LexErr (Option Token × List Char) :=
  match sliceFrom source 1 with
  | none => .error .panicked
  | some rest =>
    match consumeBase10Int rest with
    | .error e => .error e
    | .ok (n, post) => .ok (some (.Argument n), post)

/-- Does the remaining line start with `//` (Rust `str::starts_with`)? -/
def startsWithSlashSlash : List Char → Bool
  | '/' :: '/' :: _ => true
  | _ => false

/-- `lexer.rs` `consume_token`, with fuel bounding the whitespace-skipping
loop iterations (each iteration strictly shortens the line, so
`length + 1` fuel is always enough).  The match arms appear in the order
of the Rust `match`. -/
def consumeTokenF : Nat → List Char → Except LexErr (Option Token × List Char)
  | 0, _ => .error .fuelStop
  | fuel + 1, source =>
    match source with
    | [] => .ok (none, source)
    | c :: rest =>
      if c = '*' then .ok (some .Asterisk, rest)
      else if c = '{' then .ok (some .LeftCurlyBracket, rest)
      else if c = '}' then .ok (some .RightCurlyBracket, rest)
      else if c = '(' then .ok (some .LeftParen, rest)
      else if c = ')' then .ok (some .RightParen, rest)
      else if c = '$' then consumeArgument source
      else if charIsWhitespace c then
        match consumeWhitespace source with
        | .error e => .error e
        | .ok updated => consumeTokenF fuel updated
      else if charIsAsciiDigit c then consumeWord source
      else if startsWithSlashSlash source then .ok (none, source)
      else if charIsAlphabetic c || c = '_' then consumeSymbol source
      else .error (.syn (.unexpectedChar c))

/-- `consume_token` with enough fuel for any input. -/
def consumeToken (source : List Char) :
    Except LexErr (Option Token × List Char) :=
  consumeTokenF (source.length + 1) source

/-- Outcome of lexing one full line. -/
inductive LexResult where
  /-- The Rust process aborts on a string-slice panic. -/
  | panicked
  /-- Model fuel exhausted (unreachable for real runs). -/
  | fuelOut
  /-- `Err(Syntax error ...)`. -/
  | error (e : SynErr)
  /-- `Ok(tokens)`. -/
  | tokens (ts : List Token)
deriving DecidableEq, Repr

/-- `lexer.rs` `lex_line`, with fuel bounding loop iterations (each
consumed token strictly shortens the line). -/
def lexLineF : Nat → List Char → LexResult
  | 0, _ => .fuelOut
  | fuel + 1, source =>
    match consumeToken source with
    | .error .panicked => .panicked
    | .error .fuelStop => .fuelOut
    | .error (.syn e) => .error e
    | .ok (none, _) => .tokens []
    | .ok (some t, updated) =>
      match lexLineF fuel updated with
      | .tokens ts => .tokens (t :: ts)
      | r => r

/-- `lex_line` with enough fuel for any input. -/
def lexLine (source : List Char) : LexResult :=
  lexLineF (source.length + 1) source

/-! ## Parser (`src/parser.rs`) -/

/-- `parser.rs` `enum Instruction`. -/
inductive Instruction where
  | PushData (n : Nat)
  | PushFunction (f : String)
  | PushRandom
  | PushArg (n : Nat)
  | Define (f : String) (argCount : Nat) (body : List Instruction)
  | CallIf
  | Exit
deriving Repr

/-- Parser state: the pending tokens of the `TokenStream` plus the nesting
`depth` counter.  The token source is modelled as a list, matching the
iterator `TokenStream` the parser's tests drive it with; `next_token`
ignores the depth argument for such a source. -/
structure PState where
  tokens : List Token
  depth : Nat
deriving Repr

/-- `TokenStream::next_token` for a list-backed stream. -/
def nextTokenP (p : PState) : Option Token × PState :=
  match p.tokens with
  | [] => (none, p)
  | t :: ts => (some t, { p with tokens := ts })

/-- Structured form of the parser's `Syntax error:` messages. -/
inductive PErr where
  /-- `Unexpected end of file in body of function 'f'.` -/
  | eofInBody (f : String)
  /-- `Nested definitions are not allowed.` -/
  | nestedDefn
  /-- `Unexpected token t.` -/
  | unexpectedToken (t : Token)
  /-- `Unexpected end of file after token t.` -/
  | eofAfterToken (t : Token)
  /-- `Cannot use arguments outside functions.` -/
  | argsOutsideFunctions
  /-- `Cannot define function 'f' because the prefix '__' is reserved for
  built-in functions.` -/
  | reservedName (f : String)
  /-- `Unexpected end of file in signature of function 'f'.` -/
  | eofInSignature (f : String)
deriving Repr

/-- Result of `consume_instruction` / `next_instruction`. -/
inductive PRes where
  | ok (i : Option Instruction) (p : PState)
  | err (e : PErr) (p : PState)
  | fuelOut
deriving Repr

/-- Result of `consume_defn_body`. -/
inductive BodyRes where
  | ok (body : List Instruction) (p : PState)
  | err (e : PErr) (p : PState)
  | fuelOut
deriving Repr

/-- Rust `str::starts_with("__")`. -/
def strStartsWithUU (f : String) : Bool :=
  match f.toList with
  | '_' :: '_' :: _ => true
  | _ => false

/-- `parser.rs` `expect`: read one token, require it to equal `token`. -/
def expectP (token : Token) (eofErr : PErr) (p : PState) :
    Except (PErr × PState) PState :=
  match nextTokenP p with
  | (none, p') => .error (eofErr, p')
  | (some t, p') => if t = token then .ok p' else .error (.unexpectedToken t, p')

/-- `parser.rs` `consume_push`: depth is incremented around the read of the
pushed value and decremented only on success. -/
def consumePush (insideDefn : Bool) (p : PState) : PRes :=
  let p1 : PState := { p with depth := p.depth + 1 }
  match nextTokenP p1 with
  | (none, p') => .err (.eofAfterToken .Push) p'
  | (some (.Word n), p') =>
    .ok (some (.PushData n)) { p' with depth := p'.depth - 1 }
  | (some (.FunctionName f), p') =>
    .ok (some (.PushFunction f)) { p' with depth := p'.depth - 1 }
  | (some .Asterisk, p') =>
    .ok (some .PushRandom) { p' with depth := p'.depth - 1 }
  | (some (.Argument n), p') =>
    if insideDefn then .ok (some (.PushArg n)) { p' with depth := p'.depth - 1 }
    else .err .argsOutsideFunctions p'
  | (some t, p') => .err (.unexpectedToken t) p'

mutual

/-- `parser.rs` `consume_instruction` (fuel bounds the recursion through
definition bodies). -/
def consumeInstructionF : Nat → Bool → String → PState → PRes
  | 0, _, _, _ => .fuelOut
  | fuel + 1, insideDefn, funcName, p =>
    match nextTokenP p with
    | (none, p') =>
      if insideDefn then .err (.eofInBody funcName) p' else .ok none p'
    | (some .Push, p') => consumePush insideDefn p'
    | (some .Defn, p') =>
      if insideDefn then .err .nestedDefn p' else consumeDefnF fuel p'
    | (some .CallIf, p') => .ok (some .CallIf) p'
    | (some .Exit, p') => .ok (some .Exit) p'
    | (some .RightCurlyBracket, p') =>
      if insideDefn then .ok none p'
      else .err (.unexpectedToken .RightCurlyBracket) p'
    | (some t, p') => .err (.unexpectedToken t) p'

/-- `parser.rs` `consume_defn`: name (rejecting the reserved `__` prefix),
then `(`, arity word, `)`, `{`, body; depth is incremented first and
decremented only on success. -/
def consumeDefnF : Nat → PState → PRes
  | 0, _ => .fuelOut
  | fuel + 1, p =>
    let p1 : PState := { p with depth := p.depth + 1 }
    match nextTokenP p1 with
    | (none, p') => .err (.eofAfterToken .Defn) p'
    | (some (.FunctionName f), p') =>
      if strStartsWithUU f then .err (.reservedName f) p'
      else
        match expectP .LeftParen (.eofInSignature f) p' with
        | .error (e, p2) => .err e p2
        | .ok p2 =>
          match nextTokenP p2 with
          | (none, p3) => .err (.eofInSignature f) p3
          | (some (.Word n), p3) =>
            match expectP .RightParen (.eofInSignature f) p3 with
            | .error (e, p4) => .err e p4
            | .ok p4 =>
              match expectP .LeftCurlyBracket (.eofInSignature f) p4 with
              | .error (e, p5) => .err e p5
              | .ok p5 =>
                match consumeDefnBodyF fuel f p5 with
                | .fuelOut => .fuelOut
                | .err e p6 => .err e p6
                | .ok body p6 =>
                  .ok (some (.Define f n body)) { p6 with depth := p6.depth - 1 }
          | (some t, p3) => .err (.unexpectedToken t) p3
    | (some t, p') => .err (.unexpectedToken t) p'

/-- `parser.rs` `consume_defn_body`: accumulate instructions until the
closing brace signals end of body. -/
def consumeDefnBodyF : Nat → String → PState → BodyRes
  | 0, _, _ => .fuelOut
  | fuel + 1, funcName, p =>
    match consumeInstructionF fuel true funcName p with
    | .fuelOut => .fuelOut
    | .err e p' => .err e p'
    | .ok none p' => .ok [] p'
    | .ok (some i) p' =>
      match consumeDefnBodyF fuel funcName p' with
      | .fuelOut => .fuelOut
      | .err e p'' => .err e p''
      | .ok body p'' => .ok (i :: body) p''

end

/-- `parser.rs` `next_instruction`: drives `consume_instruction` at top
level and resets the depth counter to zero on error. -/
def nextInstructionF (fuel : Nat) (p : PState) : PRes :=
  match consumeInstructionF fuel false "" p with
  | .err e p' => .err e { p' with depth := 0 }
  | r => r

/-! ## Runtime (`src/runtime.rs`) -/

/-- `runtime.rs` `enum Word` (runtime stack value). -/
inductive Word where
  | Data (n : Nat)
  | Function (f : String)
deriving DecidableEq, Repr

/-- Structured form of the runtime's error messages. -/
inductive RErr where
  /-- `Runtime error: Stack underflow.` -/
  | underflow
  /-- `Runtime error: Undefined argument or function.` -/
  | undefined
  /-- `Runtime error: Wrong type.` -/
  | typeMismatch
  /-- `Runtime error: Invalid UTF-32 code point.` -/
  | utf32
deriving DecidableEq, Repr

/-- `runtime.rs` `struct Runtime`.  `value_stack` and `instruction_stack`
have their top as the list head; `function_table` is an association list
with insert-overwrites semantics modelling the `HashMap`; `rands` models
the stream of values the thread-local RNG will produce; `stdin_lines` and
`stdout_chars` model the standard streams (reads and flushes always
succeed in the model, so the two `Environment error:` cases of the source
cannot arise). -/
structure RState where
  value_stack : List Word
  function_table : List (String × (Nat × List Instruction))
  instruction_stack : List Instruction
  args_array : List Word
  rands : List Nat
  stdin_lines : List (List Char)
  stdout_chars : List Char
deriving Repr

/-- `HashMap::insert`: overwrite any previous entry for the key. -/
def ftInsert (f : String) (v : Nat × List Instruction)
    (t : List (String × (Nat × List Instruction))) :
    List (String × (Nat × List Instruction)) :=
  (f, v) :: t.filter (fun kv => kv.1 ≠ f)

/-- Result of executing one instruction (or of the driving loop): the Rust
`Result<bool, Error>` together with the mutated `&mut self` state. -/
inductive StepResult where
  | ok (exit : Bool) (s : RState)
  | err (e : RErr) (s : RState)
deriving Repr

/-- `runtime.rs` `pop_data_from_stack`: pop (removing the word even on the
error path), underflow on empty, type error on a `Function` word. -/
def popDataFromStack (s : RState) : Except (RErr × RState) (Nat × RState) :=
  match s.value_stack with
  | [] => .error (.underflow, s)
  | .Function _ :: rest => .error (.typeMismatch, { s with value_stack := rest })
  | .Data n :: rest => .ok (n, { s with value_stack := rest })

/-- `runtime.rs` `pop_function_from_stack`. -/
def popFunctionFromStack (s : RState) :
    Except (RErr × RState) (String × RState) :=
  match s.value_stack with
  | [] => .error (.underflow, s)
  | .Data _ :: rest => .error (.typeMismatch, { s with value_stack := rest })
  | .Function f :: rest => .ok (f, { s with value_stack := rest })

/-- The loop of `call_print`: repeatedly pop a `Data` word, stop at `0`,
otherwise emit the code point (`char::from_u32` fails on surrogates and
values above `0x10FFFF`).  Returns the error if any, the remaining stack
and the extended output. -/
def printLoop : List Word → List Char → Option RErr × List Word × List Char
  | [], out => (some .underflow, [], out)
  | .Function _ :: rest, out => (some .typeMismatch, rest, out)
  | .Data n :: rest, out =>
    if n = 0 then (none, rest, out)
    else if n < 0xD800 ∨ (0xDFFF < n ∧ n < 0x110000) then
      printLoop rest (out ++ [Char.ofNat n])
    else (some .utf32, rest, out)

/-- `runtime.rs` `call_print` (stdout flush always succeeds in the model). -/
def callPrint (s : RState) : StepResult :=
  match printLoop s.value_stack s.stdout_chars with
  | (some e, st, out) => .err e { s with value_stack := st, stdout_chars := out }
  | (none, st, out) => .ok false { s with value_stack := st, stdout_chars := out }

/-- `runtime.rs` `call_input`: read one line (the model never fails), push
its characters as `Data` words in reverse order. -/
def callInput (s : RState) : StepResult :=
  let line := s.stdin_lines.headD []
  .ok false
    { s with
      value_stack := line.reverse.foldl (fun st c => .Data c.toNat :: st) s.value_stack
      stdin_lines := s.stdin_lines.tail }

/-- Rust `!(a & b)` on `u32` (for `a b < 2^32` this is the 32-bit NAND). -/
def nandU32 (a b : Nat) : Nat :=
  4294967295 ^^^ (a &&& b)

/-- `runtime.rs` `call_nand`. -/
def callNand (s : RState) : StepResult :=
  match popDataFromStack s with
  | .error (e, s') => .err e s'
  | .ok (a, s') =>
    match popDataFromStack s' with
    | .error (e, s'') => .err e s''
    | .ok (b, s'') =>
      .ok false { s'' with value_stack := .Data (nandU32 a b) :: s''.value_stack }

/-- `runtime.rs` `call_shift_left` (`n << 1` on `u32` truncates to 32 bits). -/
def callShiftLeft (s : RState) : StepResult :=
  match popDataFromStack s with
  | .error (e, s') => .err e s'
  | .ok (n, s') =>
    .ok false { s' with value_stack := .Data (n * 2 % 4294967296) :: s'.value_stack }

/-- `runtime.rs` `call_shift_right` (`n >> 1` on `u32`). -/
def callShiftRight (s : RState) : StepResult :=
  match popDataFromStack s with
  | .error (e, s') => .err e s'
  | .ok (n, s') =>
    .ok false { s' with value_stack := .Data (n / 2) :: s'.value_stack }

/-- `runtime.rs` `call_builtin_function`: dispatch on the double-underscore
name, `Undefined` for unrecognized built-ins. -/
def callBuiltinFunction (f : String) (s : RState) : StepResult :=
  if f = "__print__" then callPrint s
  else if f = "__input__" then callInput s
  else if f = "__nand__" then callNand s
  else if f = "__shift_left__" then callShiftLeft s
  else if f = "__shift_right__" then callShiftRight s
  else .err .undefined s

/-- The argument-popping loop of `call_custom_function`: pop `n` words off
`value_stack`, appending each to `args_array` in pop order. -/
def popArgsLoop : Nat → RState → Except (RErr × RState) RState
  | 0, s => .ok s
  | n + 1, s =>
    match s.value_stack with
    | [] => .error (.underflow, s)
    | w :: rest =>
      popArgsLoop n
        { s with value_stack := rest, args_array := s.args_array ++ [w] }

/-- The body-pushing loop of `call_custom_function`: push the body's
instructions onto `instruction_stack` in reverse order. -/
def pushBodyRev (body : List Instruction) (st : List Instruction) :
    List Instruction :=
  body.reverse.foldl (fun acc i => i :: acc) st

/-- `runtime.rs` `call_custom_function`: look up the function table
(`Undefined` if absent), pop `arity` words into `args_array`, then push
the body in reverse onto the trampoline. -/
def callCustomFunction (f : String) (s : RState) : StepResult :=
  match s.function_table.lookup f with
  | none => .err .undefined s
  | some (argCount, body) =>
    match popArgsLoop argCount s with
    | .error (e, s') => .err e s'
    | .ok s' =>
      .ok false { s' with instruction_stack := pushBodyRev body s'.instruction_stack }

/-- `runtime.rs` `call_function`: clear `args_array` first (so arguments
from a previous call never leak into a subsequent call), then dispatch on
the reserved `__` prefix. -/
def callFunction (f : String) (s : RState) : StepResult :=
  let s1 : RState := { s with args_array := [] }
  if strStartsWithUU f then callBuiltinFunction f s1
  else callCustomFunction f s1

/-- `runtime.rs` `run_callif`: pop a `Function` word, pop a `Data` word,
no call when the datum is `0`, otherwise invoke the function. -/
def runCallIf (s : RState) : StepResult :=
  match popFunctionFromStack s with
  | .error (e, s') => .err e s'
  | .ok (f, s') =>
    match popDataFromStack s' with
    | .error (e, s'') => .err e s''
    | .ok (topData, s'') =>
      if topData = 0 then .ok false s'' else callFunction f s''

/-- `runtime.rs` `run_instruction`. -/
def runInstruction (i : Instruction) (s : RState) : StepResult :=
  match i with
  | .Exit => .ok true s
  | .PushData n => .ok false { s with value_stack := .Data n :: s.value_stack }
  | .PushFunction f => .ok false { s with value_stack := .Function f :: s.value_stack }
  | .PushRandom =>
    .ok false
      { s with value_stack := .Data (s.rands.headD 0) :: s.value_stack
               rands := s.rands.tail }
  | .PushArg n =>
    match s.args_array.get? n with
    | none => .err .undefined s
    | some w => .ok false { s with value_stack := w :: s.value_stack }
  | .Define f argCount body =>
    .ok false { s with function_table := ftInsert f (argCount, body) s.function_table }
  | .CallIf => runCallIf s

/-- Result of the `run` driving loop; `fuelOut` is the model's bound on
loop iterations (interpreted programs may genuinely diverge). -/
inductive RunResult where
  | ok (exit : Bool) (s : RState)
  | err (e : RErr) (s : RState)
  | fuelOut (s : RState)
deriving Repr

/-- The loop of `runtime.rs` `run`: pop the next pending instruction and
execute it; on failure clear `instruction_stack` and propagate; on `Exit`
stop immediately, leaving the remaining pending instructions in place. -/
def runLoopF : Nat → RState → RunResult
  | 0, s => .fuelOut s
  | fuel + 1, s =>
    match s.instruction_stack with
    | [] => .ok false s
    | i :: rest =>
      match runInstruction i { s with instruction_stack := rest } with
      | .err e s' => .err e { s' with instruction_stack := [] }
      | .ok true s' => .ok true s'
      | .ok false s' => runLoopF fuel s'

/-- The same loop but propagating an error with the state exactly as the
failing instruction left it (no discarding of `instruction_stack`): the
reference against which `run`'s abort behaviour is compared. -/
def runLoopNCF : Nat → RState → RunResult
  | 0, s => .fuelOut s
  | fuel + 1, s =>
    match s.instruction_stack with
    | [] => .ok false s
    | i :: rest =>
      match runInstruction i { s with instruction_stack := rest } with
      | .err e s' => .err e s'
      | .ok true s' => .ok true s'
      | .ok false s' => runLoopNCF fuel s'

/-- `runtime.rs` `run`: push the instruction onto the trampoline, then loop. -/
def run (fuel : Nat) (i : Instruction) (s : RState) : RunResult :=
  runLoopF fuel { s with instruction_stack := i :: s.instruction_stack }

/-- `run` over the non-discarding loop (reference for the abort behaviour). -/
def runNC (fuel : Nat) (i : Instruction) (s : RState) : RunResult :=
  runLoopNCF fuel { s with instruction_stack := i :: s.instruction_stack }

/-! ## Decimal numerals (for stating properties about literal digit runs) -/

/-- The ASCII digit character for `n < 10`. -/
def digitChar (n : Nat) : Char := Char.ofNat (48 + n)

/-- Most-significant-digit-first decimal digits of `n`, prefixed to `acc`
(`fuel > n` suffices). -/
def decReprAux : Nat → Nat → List Char → List Char
  | 0, _, acc => acc
  | fuel + 1, n, acc =>
    if n < 10 then digitChar n :: acc
    else decReprAux fuel (n / 10) (digitChar (n % 10) :: acc)

/-- The canonical decimal numeral of `n` (no sign, no leading zeros). -/
def decRepr (n : Nat) : List Char := decReprAux (n + 1) n []

/-- Modelled from the spec's words: the regular expression
`[a-z_][a-z0-9_]*` that the specification asserts every `FunctionName`
token's text matches. -/
def claimLowerIdent (name : String) : Bool :=
  match name.toList with
  | [] => false
  | c :: cs =>
    ((97 ≤ c.toNat && c.toNat ≤ 122) || c = '_') &&
    cs.all (fun d =>
      (97 ≤ d.toNat && d.toNat ≤ 122) || (48 ≤ d.toNat && d.toNat ≤ 57) || d = '_')

/-! ## Character, slice and numeral lemmas -/

theorem byteLen_one (c : Char) (h : c.toNat < 128) : byteLen c = 1 := by
  unfold byteLen
  rw [if_pos h]

theorem sliceFrom_drop :
    ∀ (s : List Char) (i : Nat), i ≤ s.length →
      (∀ c ∈ s.take i, byteLen c = 1) → sliceFrom s i = some (s.drop i) := by
  intro s
  induction s with
  | nil =>
    intro i hi _
    have h0 : i = 0 := by simpa using hi
    subst h0
    rfl
  | cons c cs ih =>
    intro i hi hb
    cases i with
    | zero => rfl
    | succ j =>
      have hc : byteLen c = 1 := hb c (by simp)
      have hj : j ≤ cs.length := by simpa using hi
      have hb' : ∀ d ∈ cs.take j, byteLen d = 1 := by
        intro d hd
        exact hb d (by simp [hd])
      simp only [sliceFrom, hc]
      rw [if_pos (by omega)]
      have : j + 1 - 1 = j := by omega
      rw [this]
      rw [ih j hj hb']
      rfl

theorem sliceTo_take :
    ∀ (s : List Char) (i : Nat), i ≤ s.length →
      (∀ c ∈ s.take i, byteLen c = 1) → sliceTo s i = some (s.take i) := by
  intro s
  induction s with
  | nil =>
    intro i hi _
    have h0 : i = 0 := by simpa using hi
    subst h0
    rfl
  | cons c cs ih =>
    intro i hi hb
    cases i with
    | zero => rfl
    | succ j =>
      have hc : byteLen c = 1 := hb c (by simp)
      have hj : j ≤ cs.length := by simpa using hi
      have hb' : ∀ d ∈ cs.take j, byteLen d = 1 := by
        intro d hd
        exact hb d (by simp [hd])
      simp only [sliceTo, hc]
      rw [if_pos (by omega)]
      have : j + 1 - 1 = j := by omega
      rw [this]
      rw [ih j hj hb']
      rfl

theorem countLeading_le (p : Char → Bool) :
    ∀ s : List Char, countLeading p s ≤ s.length := by
  intro s
  induction s with
  | nil => simp [countLeading]
  | cons c cs ih =>
    by_cases h : p c
    · simp [countLeading, h]
      omega
    · simp [countLeading, h]

theorem countLeading_take (p : Char → Bool) :
    ∀ s : List Char, ∀ c ∈ s.take (countLeading p s), p c = true := by
  intro s
  induction s with
  | nil => simp
  | cons c cs ih =>
    by_cases h : p c
    · simp only [countLeading, h, if_true, List.take_succ_cons, List.mem_cons]
      rintro d (rfl | hd)
      · exact h
      · exact ih d hd
    · simp [countLeading, h]

theorem countLeading_eq_length (p : Char → Bool) :
    ∀ s : List Char, (∀ c ∈ s, p c = true) → countLeading p s = s.length := by
  intro s
  induction s with
  | nil => intro _; rfl
  | cons c cs ih =>
    intro h
    have hc : p c = true := h c (by simp)
    simp only [countLeading, hc, if_true, List.length_cons]
    rw [ih (fun d hd => h d (by simp [hd]))]

theorem charIsAsciiDigit_bounds (c : Char)
    (h : charIsAsciiDigit c = true) : 48 ≤ c.toNat ∧ c.toNat ≤ 57 := by
  simpa [charIsAsciiDigit] using h

theorem digitChar_toNat (n : Nat) (h : n < 10) :
    (digitChar n).toNat = 48 + n := by
  interval_cases n <;> decide

theorem charIsAsciiDigit_digitChar (n : Nat) (h : n < 10) :
    charIsAsciiDigit (digitChar n) = true := by
  interval_cases n <;> decide

theorem decReprAux_fuel (f f' n : Nat) :
    ∀ acc, n < f → n < f' → decReprAux f n acc = decReprAux f' n acc := by
  induction f generalizing f' n with
  | zero => intro acc h _; omega
  | succ g ih =>
    intro acc hf hf'
    cases f' with
    | zero => omega
    | succ g' =>
      by_cases h10 : n < 10
      · simp [decReprAux, h10]
      · have hdiv : n / 10 < n := Nat.div_lt_self (by omega) (by omega)
        simp only [decReprAux, h10, if_false]
        exact ih g' (n / 10) _ (by omega) (by omega)

theorem decReprAux_append (f : Nat) :
    ∀ (n : Nat) (acc : List Char),
      decReprAux f n acc = decReprAux f n [] ++ acc := by
  induction f with
  | zero => intro n acc; rfl
  | succ g ih =>
    intro n acc
    by_cases h10 : n < 10
    · simp [decReprAux, h10]
    · simp only [decReprAux, h10, if_false]
      rw [ih (n / 10) (digitChar (n % 10) :: acc),
        ih (n / 10) [digitChar (n % 10)]]
      simp

theorem decRepr_small (n : Nat) (h : n < 10) :
    decRepr n = [digitChar n] := by
  simp [decRepr, decReprAux, h]

theorem decRepr_step (n : Nat) (h : 10 ≤ n) :
    decRepr n = decRepr (n / 10) ++ [digitChar (n % 10)] := by
  have hdiv : n / 10 < n := Nat.div_lt_self (by omega) (by omega)
  unfold decRepr
  conv =>
    lhs
    rw [decReprAux]
  rw [if_neg (by omega)]
  rw [decReprAux_append]
  rw [decReprAux_fuel n (n / 10 + 1) (n / 10) [] (by omega) (by omega)]

theorem decRepr_all_digit (n : Nat) :
    ∀ c ∈ decRepr n, charIsAsciiDigit c = true := by
  induction n using Nat.strong_induction_on with
  | _ n ih =>
    by_cases h10 : n < 10
    · rw [decRepr_small n h10]
      intro c hc
      simp only [List.mem_singleton] at hc
      subst hc
      exact charIsAsciiDigit_digitChar n h10
    · rw [decRepr_step n (by omega)]
      intro c hc
      rcases List.mem_append.mp hc with h | h
      · exact ih (n / 10) (Nat.div_lt_self (by omega) (by omega)) c h
      · simp only [List.mem_singleton] at h
        subst h
        exact charIsAsciiDigit_digitChar (n % 10) (Nat.mod_lt n (by omega))

theorem decRepr_ne_nil (n : Nat) : decRepr n ≠ [] := by
  by_cases h10 : n < 10
  · rw [decRepr_small n h10]
    simp
  · rw [decRepr_step n (by omega)]
    simp

theorem decRepr_foldl (n : Nat) :
    (decRepr n).foldl (fun a c => 10 * a + (c.toNat - 48)) 0 = n := by
  induction n using Nat.strong_induction_on with
  | _ n ih =>
    by_cases h10 : n < 10
    · rw [decRepr_small n h10]
      simp [digitChar_toNat n h10]
    · rw [decRepr_step n (by omega)]
      rw [List.foldl_append]
      rw [ih (n / 10) (Nat.div_lt_self (by omega) (by omega))]
      simp only [List.foldl_cons, List.foldl_nil]
      rw [digitChar_toNat (n % 10) (Nat.mod_lt n (by omega))]
      omega

theorem parseU32_decRepr (n : Nat) (h : n < 4294967296) :
    parseU32 (decRepr n) = some n := by
  obtain ⟨c, cs, hd⟩ := List.exists_cons_of_ne_nil (decRepr_ne_nil n)
  have hdig : charIsAsciiDigit c = true := by
    apply decRepr_all_digit n
    rw [hd]
    simp
  have hplus : c ≠ '+' := by
    intro hc
    subst hc
    simp [charIsAsciiDigit] at hdig
  rw [hd, parseU32, if_neg hplus, ← hd]
  unfold parseU32core
  rw [if_neg (decRepr_ne_nil n)]
  rw [if_pos (List.all_eq_true.mpr (by
    intro c' hc'
    exact decRepr_all_digit n c' hc'))]
  simp only [decRepr_foldl n]
  rw [if_pos h]

/-! ## Lexer lemmas -/

theorem alnum_underscore_byteLen (c : Char)
    (h : (charIsAlphanumeric c || c = '_') = true) : byteLen c = 1 := by
  apply byteLen_one
  simp only [Bool.or_eq_true, decide_eq_true_eq] at h
  rcases h with h | h
  · simp only [charIsAlphanumeric, charIsAlphabetic, charIsNumeric,
      charIsAsciiDigit, Bool.or_eq_true, Bool.and_eq_true,
      decide_eq_true_eq] at h
    omega
  · subst h
    decide

theorem getSymbol_spec (s : List Char) :
    getSymbol s =
      some (s.take (countLeading (fun c => charIsAlphanumeric c || c = '_') s),
        s.drop (countLeading (fun c => charIsAlphanumeric c || c = '_') s)) := by
  unfold getSymbol
  by_cases hlen :
      countLeading (fun c => charIsAlphanumeric c || c = '_') s = s.length
  · rw [if_pos hlen, hlen]
    simp
  · rw [if_neg hlen]
    have hle := countLeading_le (fun c => charIsAlphanumeric c || c = '_') s
    have hb : ∀ c ∈ s.take
        (countLeading (fun c => charIsAlphanumeric c || c = '_') s),
        byteLen c = 1 := by
      intro c hc
      exact alnum_underscore_byteLen c
        (countLeading_take (fun c => charIsAlphanumeric c || c = '_') s c hc)
    rw [sliceTo_take s _ hle hb, sliceFrom_drop s _ hle hb]

theorem consumeSymbol_cases (s : List Char) (name : String) (rest : List Char)
    (h : consumeSymbol s = .ok (some (.FunctionName name), rest)) :
    name = String.mk
        (s.take (countLeading (fun c => charIsAlphanumeric c || c = '_') s)) ∧
    name ≠ "PUSH" ∧ name ≠ "DEFN" ∧ name ≠ "CALLIF" ∧ name ≠ "EXIT" := by
  simp only [consumeSymbol, getSymbol_spec] at h
  split_ifs at h with h1 h2 h3 h4
  · simp at h
  · simp at h
  · simp at h
  · simp at h
  · simp only [Except.ok.injEq, Prod.mk.injEq, Option.some.injEq,
      Token.FunctionName.injEq] at h
    obtain ⟨hname, -⟩ := h
    subst hname
    exact ⟨rfl, h1, h2, h3, h4⟩

theorem consumeArgument_no_functionName (s : List Char) (name : String)
    (rest : List Char)
    (h : consumeArgument s = .ok (some (.FunctionName name), rest)) :
    False := by
  unfold consumeArgument at h
  split at h
  · simp at h
  · split at h
    · simp at h
    · simp at h

theorem consumeWord_no_functionName (s : List Char) (name : String)
    (rest : List Char)
    (h : consumeWord s = .ok (some (.FunctionName name), rest)) :
    False := by
  unfold consumeWord at h
  split at h
  · simp at h
  · simp at h

theorem consumeTokenF_functionName :
    ∀ (fuel : Nat) (s : List Char) (name : String) (rest : List Char),
      consumeTokenF fuel s = .ok (some (.FunctionName name), rest) →
      (∃ c cs, name.toList = c :: cs ∧
        (charIsAlphabetic c = true ∨ c = '_')) ∧
      (∀ c ∈ name.toList, charIsAlphanumeric c = true ∨ c = '_') ∧
      name ≠ "PUSH" ∧ name ≠ "DEFN" ∧ name ≠ "CALLIF" ∧ name ≠ "EXIT" := by
  intro fuel
  induction fuel with
  | zero =>
    intro s name rest h
    simp [consumeTokenF] at h
  | succ g ih =>
    intro s name rest h
    cases s with
    | nil => simp [consumeTokenF] at h
    | cons c cs =>
      rw [consumeTokenF] at h
      split_ifs at h with h1 h2 h3 h4 h5 h6 h7 h8 h9 h10
      all_goals try simp at h
      · exact absurd h (fun hh => consumeArgument_no_functionName _ _ _ hh)
      · split at h
        · simp at h
        · exact ih _ name rest h
      · exact absurd h (fun hh => consumeWord_no_functionName _ _ _ hh)
      · -- the alphabetic-or-underscore branch: `consume_symbol`
        obtain ⟨hname, hkw⟩ := consumeSymbol_cases _ _ _ h
        have hqc : (charIsAlphanumeric c || c = '_') = true := by
          simp only [Bool.or_eq_true, decide_eq_true_eq] at h10 ⊢
          rcases h10 with h10 | h10
          · exact Or.inl (by simp [charIsAlphanumeric, h10])
          · exact Or.inr h10
        have hcount : countLeading (fun c => charIsAlphanumeric c || c = '_')
            (c :: cs) =
            countLeading (fun c => charIsAlphanumeric c || c = '_') cs + 1 := by
          simp [countLeading, hqc]
        have hlist : name.toList =
            c :: cs.take
              (countLeading (fun c => charIsAlphanumeric c || c = '_') cs) := by
          rw [hname, hcount]
          rfl
        refine ⟨⟨c, _, hlist, ?_⟩, ?_, hkw⟩
        · simpa only [Bool.or_eq_true, decide_eq_true_eq] using h10
        · intro d hd
          rw [hlist] at hd
          rcases List.mem_cons.mp hd with rfl | hd
          · simpa only [Bool.or_eq_true, decide_eq_true_eq] using hqc
          · have := countLeading_take (fun c => charIsAlphanumeric c || c = '_')
              cs d hd
            simpa only [Bool.or_eq_true, decide_eq_true_eq] using this

theorem lexLineF_functionName :
    ∀ (fuel : Nat) (s : List Char) (ts : List Token),
      lexLineF fuel s = .tokens ts →
      ∀ name, Token.FunctionName name ∈ ts →
      (∃ c cs, name.toList = c :: cs ∧
        (charIsAlphabetic c = true ∨ c = '_')) ∧
      (∀ c ∈ name.toList, charIsAlphanumeric c = true ∨ c = '_') ∧
      name ≠ "PUSH" ∧ name ≠ "DEFN" ∧ name ≠ "CALLIF" ∧ name ≠ "EXIT" := by
  intro fuel
  induction fuel with
  | zero =>
    intro s ts h
    simp [lexLineF] at h
  | succ g ih =>
    intro s ts h name hmem
    rw [lexLineF] at h
    cases hct : consumeToken s with
    | error e =>
      cases e <;> rw [hct] at h <;> simp at h
    | ok pair =>
      obtain ⟨topt, updated⟩ := pair
      cases topt with
      | none =>
        simp only [hct] at h
        injection h with h'
        subst h'
        simp at hmem
      | some t =>
        simp only [hct] at h
        cases hrec : lexLineF g updated with
        | tokens ts' =>
          simp only [hrec] at h
          injection h with h'
          subst h'
          rcases List.mem_cons.mp hmem with rfl | hmem'
          · exact consumeTokenF_functionName _ s name updated hct
          · exact ih updated ts' hrec name hmem'
        | panicked => simp [hrec] at h
        | fuelOut => simp [hrec] at h
        | error e => simp [hrec] at h

theorem digit_branch_facts (c : Char) (h : charIsAsciiDigit c = true) :
    c ≠ '*' ∧ c ≠ '{' ∧ c ≠ '}' ∧ c ≠ '(' ∧ c ≠ ')' ∧ c ≠ '$' ∧
    charIsWhitespace c = false := by
  obtain ⟨h1, h2⟩ := charIsAsciiDigit_bounds c h
  refine ⟨?_, ?_, ?_, ?_, ?_, ?_, ?_⟩
  · intro he; subst he; exact absurd h (by decide)
  · intro he; subst he; exact absurd h (by decide)
  · intro he; subst he; exact absurd h (by decide)
  · intro he; subst he; exact absurd h (by decide)
  · intro he; subst he; exact absurd h (by decide)
  · intro he; subst he; exact absurd h (by decide)
  · cases hb : charIsWhitespace c with
    | false => rfl
    | true =>
      exfalso
      simp only [charIsWhitespace, Bool.or_eq_true, Bool.and_eq_true,
        decide_eq_true_eq] at hb
      omega

theorem digit_byteLen (c : Char) (h : charIsAsciiDigit c = true) :
    byteLen c = 1 := by
  obtain ⟨_, h2⟩ := charIsAsciiDigit_bounds c h
  exact byteLen_one c (by omega)

theorem consumeBase10Int_all_digits (ds : List Char) (n : Nat)
    (hne : ds ≠ [])
    (hdig : ∀ c ∈ ds, charIsAsciiDigit c = true)
    (hp : parseU32 ds = some n) :
    consumeBase10Int ds = .ok (n, []) := by
  obtain ⟨c, cs, rfl⟩ := List.exists_cons_of_ne_nil hne
  have hcnt : countLeading charIsAsciiDigit cs = cs.length :=
    countLeading_eq_length _ cs (fun d hd => hdig d (by simp [hd]))
  have hb : ∀ d ∈ (c :: cs).take ((c :: cs).length), byteLen d = 1 := by
    intro d hd
    rw [List.take_length] at hd
    exact digit_byteLen d (hdig d hd)
  have hs1 : sliceTo (c :: cs) ((c :: cs).length) = some (c :: cs) := by
    rw [sliceTo_take _ _ le_rfl hb, List.take_length]
  have hs2 : sliceFrom (c :: cs) ((c :: cs).length) = some [] := by
    rw [sliceFrom_drop _ _ le_rfl hb, List.drop_length]
  unfold consumeBase10Int
  simp only [List.drop_succ_cons, List.drop_zero, hcnt]
  rw [show 1 + cs.length = (c :: cs).length by simp; omega]
  simp only [hs1, hs2, hp]

theorem ct_push (ds : List Char) :
    consumeToken ('P' :: 'U' :: 'S' :: 'H' :: ' ' :: ds) =
      .ok (some .Push, ' ' :: ds) := rfl

theorem ct_word (ds : List Char) (n : Nat) (hne : ds ≠ [])
    (hdig : ∀ c ∈ ds, charIsAsciiDigit c = true)
    (hp : parseU32 ds = some n) :
    consumeToken (' ' :: ds) = .ok (some (.Word n), []) := by
  obtain ⟨c, cs, rfl⟩ := List.exists_cons_of_ne_nil hne
  have hc : charIsAsciiDigit c = true := hdig c (by simp)
  obtain ⟨hs1, hs2, hs3, hs4, hs5, hs6, hws⟩ := digit_branch_facts c hc
  have hcw : consumeWhitespace (' ' :: c :: cs) = .ok (c :: cs) := by
    have h0 : countLeading charIsWhitespace (c :: cs) = 0 := by
      simp [countLeading, hws]
    have hbl : byteLen ' ' = 1 := by decide
    simp [consumeWhitespace, h0, sliceFrom, hbl]
  have hb10 := consumeBase10Int_all_digits (c :: cs) n (by simp) hdig hp
  show consumeTokenF ((' ' :: c :: cs).length + 1) (' ' :: c :: cs) = _
  rw [show (' ' :: c :: cs).length + 1 = (cs.length + 2) + 1 by simp]
  rw [consumeTokenF]
  rw [if_neg (by decide), if_neg (by decide), if_neg (by decide),
    if_neg (by decide), if_neg (by decide), if_neg (by decide),
    if_pos (by decide)]
  rw [hcw]
  simp only
  rw [show cs.length + 2 = (cs.length + 1) + 1 from rfl]
  rw [consumeTokenF]
  rw [if_neg hs1, if_neg hs2, if_neg hs3, if_neg hs4, if_neg hs5,
    if_neg hs6, if_neg (by simp [hws]), if_pos hc]
  simp [consumeWord, hb10]

theorem lexLineF_cons (fuel : Nat) (s s' : List Char) (t : Token)
    (h : consumeToken s = .ok (some t, s')) :
    lexLineF (fuel + 1) s =
      (match lexLineF fuel s' with
       | .tokens ts => .tokens (t :: ts)
       | r => r) := by
  rw [lexLineF]
  simp only [h]

theorem lexLineF_nil (fuel : Nat) : lexLineF (fuel + 1) [] = .tokens [] :=
  rfl

/-! ## Claims about the lexer -/

/-- C7 counterexample: the input `PUSH123` lexes to a single
`FunctionName("PUSH123")` token (maximal-munch over keyword matching),
whose text does not match the claimed regular expression
`[a-z_][a-z0-9_]*` because it contains uppercase characters. -/
theorem C7_uppercase_counterexample :
    lexLine "PUSH123".toList = .tokens [.FunctionName "PUSH123"] ∧
    claimLowerIdent "PUSH123" = false := by
  constructor
  · rfl
  · rfl

/-- C7 (amended): on ASCII input (where the model's character classes
coincide with Rust's Unicode classes), every `FunctionName` token the
lexer emits is a maximal run of alphanumeric-or-underscore characters
whose first character is alphabetic or an underscore — uppercase included,
not the claimed `[a-z_][a-z0-9_]*` — and is none of the keywords; in
particular `PUSH123` lexes as a single `FunctionName`, not as `Push`
followed by a number. -/
theorem C7_function_name_shape :
    (∀ (s : List Char) (ts : List Token) (name : String),
      (∀ c ∈ s, c.toNat < 128) →
      lexLine s = .tokens ts →
      Token.FunctionName name ∈ ts →
      (∃ c cs, name.toList = c :: cs ∧
        (charIsAlphabetic c = true ∨ c = '_')) ∧
      (∀ c ∈ name.toList, charIsAlphanumeric c = true ∨ c = '_') ∧
      name ≠ "PUSH" ∧ name ≠ "DEFN" ∧ name ≠ "CALLIF" ∧ name ≠ "EXIT") ∧
    lexLine "PUSH123".toList = .tokens [.FunctionName "PUSH123"] := by
  constructor
  · intro s ts name _ h hmem
    exact lexLineF_functionName _ s ts h name hmem
  · rfl

theorem C7_function_name_shape_witness :
    (∃ c cs, ("abc" : String).toList = c :: cs ∧
      (charIsAlphabetic c = true ∨ c = '_')) ∧
    (∀ c ∈ ("abc" : String).toList, charIsAlphanumeric c = true ∨ c = '_') ∧
    ("abc" : String) ≠ "PUSH" ∧ ("abc" : String) ≠ "DEFN" ∧
    ("abc" : String) ≠ "CALLIF" ∧ ("abc" : String) ≠ "EXIT" :=
  C7_function_name_shape.1 "abc".toList [.FunctionName "abc"] "abc"
    (by decide) rfl (by simp)

/-- C8: for every decimal literal `d` below `2^32`, lexing the line
`PUSH d` (with `d` written as its canonical decimal numeral) yields
exactly the tokens `[Push, Word d]`; lexing `PUSH 4294967296` fails with
the syntax error naming the offending digit run. -/
theorem C8_push_decimal :
    (∀ d : Nat, d < 4294967296 →
      lexLine ('P' :: 'U' :: 'S' :: 'H' :: ' ' :: decRepr d) =
        .tokens [.Push, .Word d]) ∧
    lexLine "PUSH 4294967296".toList =
      .error (.invalidWord "4294967296".toList) := by
  constructor
  · intro d hd
    have hw := ct_word (decRepr d) d (decRepr_ne_nil d) (decRepr_all_digit d)
      (parseU32_decRepr d hd)
    unfold lexLine
    rw [show ('P' :: 'U' :: 'S' :: 'H' :: ' ' :: decRepr d).length + 1 =
        ((decRepr d).length + 5) + 1 by simp]
    rw [lexLineF_cons ((decRepr d).length + 5) _ _ _ (ct_push (decRepr d))]
    rw [show (decRepr d).length + 5 = ((decRepr d).length + 4) + 1 from rfl]
    rw [lexLineF_cons ((decRepr d).length + 4) _ _ _ hw]
    rw [show (decRepr d).length + 4 = ((decRepr d).length + 3) + 1 from rfl]
    rw [lexLineF_nil]
  · decide

theorem C8_push_decimal_witness :
    (7 : Nat) < 4294967296 ∧
    lexLine ('P' :: 'U' :: 'S' :: 'H' :: ' ' :: decRepr 7) =
      .tokens [.Push, .Word 7] :=
  ⟨by decide, C8_push_decimal.1 7 (by decide)⟩

/-- C10: lexing is not total at the public interface — it aborts on a
Rust panic instead of returning a syntax error: a line whose final
character is a bare `$` with no following digit makes
`consume_base10_int` slice `""[..1]` out of bounds, and a line starting
with non-ASCII whitespace (here U+00A0) makes `consume_whitespace` slice
in the middle of a multi-byte character. -/
theorem C10_lexer_panics :
    lexLine ['$'] = .panicked ∧
    lexLine [Char.ofNat 0xA0, 'x'] = .panicked := by
  constructor
  · rfl
  · rfl

/-! ## Claims about the parser -/

/-- C9: parsing a `DEFN` whose function name begins with the reserved
prefix `__` fails with the reserved-prefix syntax error immediately after
reading the name, whatever tokens (arity, body) follow, and no `Define`
instruction is produced; `next_instruction` resets the depth counter to
zero. -/
theorem C9_reserved_prefix_rejected (fuel d : Nat) (f : String)
    (rest : List Token) (hf : strStartsWithUU f = true) :
    nextInstructionF (fuel + 2) ⟨.Defn :: .FunctionName f :: rest, d⟩ =
      .err (.reservedName f) ⟨rest, 0⟩ := by
  unfold nextInstructionF
  rw [show fuel + 2 = (fuel + 1) + 1 from rfl]
  rw [consumeInstructionF]
  simp [nextTokenP, consumeDefnF, hf]

theorem C9_reserved_prefix_rejected_witness :
    strStartsWithUU "__empty" = true ∧
    nextInstructionF 2
      ⟨[.Defn, .FunctionName "__empty", .LeftParen, .Word 0, .RightParen,
        .LeftCurlyBracket, .RightCurlyBracket], 0⟩ =
      .err (.reservedName "__empty")
        ⟨[.LeftParen, .Word 0, .RightParen, .LeftCurlyBracket,
          .RightCurlyBracket], 0⟩ :=
  ⟨rfl,
   C9_reserved_prefix_rejected 0 0 "__empty"
     [.LeftParen, .Word 0, .RightParen, .LeftCurlyBracket,
      .RightCurlyBracket] rfl⟩

/-! ## Runtime lemmas -/

theorem popArgsLoop_ok :
    ∀ (n : Nat) (s : RState), n ≤ s.value_stack.length →
      popArgsLoop n s = .ok
        { s with value_stack := s.value_stack.drop n,
                 args_array := s.args_array ++ s.value_stack.take n } := by
  intro n
  induction n with
  | zero => intro s _; simp [popArgsLoop]
  | succ m ih =>
    intro s hn
    cases hv : s.value_stack with
    | nil => rw [hv] at hn; simp at hn
    | cons w rest =>
      rw [hv] at hn
      have hr : m ≤ rest.length := by simpa using hn
      have := ih { s with value_stack := rest, args_array := s.args_array ++ [w] }
        (by simpa using hr)
      simp only [popArgsLoop, hv]
      rw [this]
      simp [List.append_assoc]

theorem pushBodyRev_eq :
    ∀ (body st : List Instruction), pushBodyRev body st = body ++ st := by
  intro body
  induction body with
  | nil => intro st; rfl
  | cons b bs ih =>
    intro st
    simp only [pushBodyRev, List.reverse_cons, List.foldl_append] at *
    rw [ih st]
    rfl

theorem runLoopF_err_of_nc :
    ∀ (fuel : Nat) (s : RState) (e : RErr) (s'' : RState),
      runLoopNCF fuel s = .err e s'' →
      runLoopF fuel s = .err e { s'' with instruction_stack := [] } := by
  intro fuel
  induction fuel with
  | zero => intro s e s'' h; simp [runLoopNCF] at h
  | succ n ih =>
    intro s e s'' h
    cases hs : s.instruction_stack with
    | nil => simp [runLoopNCF, hs] at h
    | cons i rest =>
      simp only [runLoopNCF, hs] at h
      simp only [runLoopF, hs]
      cases hr : runInstruction i { s with instruction_stack := rest } with
      | err e' st =>
        simp only [hr] at h ⊢
        injection h with h1 h2
        subst h1
        subst h2
        rfl
      | ok b st =>
        simp only [hr] at h ⊢
        cases b with
        | true => simp at h
        | false => exact ih st e s'' h

theorem runLoopF_err_to_nc :
    ∀ (fuel : Nat) (s : RState) (e : RErr) (s' : RState),
      runLoopF fuel s = .err e s' →
      ∃ s'', runLoopNCF fuel s = .err e s'' ∧
        s' = { s'' with instruction_stack := [] } := by
  intro fuel
  induction fuel with
  | zero => intro s e s' h; simp [runLoopF] at h
  | succ n ih =>
    intro s e s' h
    cases hs : s.instruction_stack with
    | nil => simp [runLoopF, hs] at h
    | cons i rest =>
      simp only [runLoopF, hs] at h
      simp only [runLoopNCF, hs]
      cases hr : runInstruction i { s with instruction_stack := rest } with
      | err e' st =>
        simp only [hr] at h ⊢
        injection h with h1 h2
        subst h1
        exact ⟨st, rfl, h2.symm⟩
      | ok b st =>
        simp only [hr] at h ⊢
        cases b with
        | true => simp at h
        | false => exact ih st e s' h

/-! ## Claims about the runtime -/

/-- C1: executing `CallIf` pops the top of `value_stack` expecting a
`Function` word (type error if it is `Data`), then pops the next word
expecting `Data` (type error if it is `Function`); if that datum equals
`0`, exactly those two top words are removed, no call occurs, and the
rest of the state is unchanged; otherwise the named function is invoked. -/
theorem C1_callif_dispatch (s : RState) :
    (∀ n rest, s.value_stack = .Data n :: rest →
      runCallIf s = .err .typeMismatch { s with value_stack := rest }) ∧
    (∀ f g rest, s.value_stack = .Function f :: .Function g :: rest →
      runCallIf s = .err .typeMismatch { s with value_stack := rest }) ∧
    (∀ f rest, s.value_stack = .Function f :: .Data 0 :: rest →
      runCallIf s = .ok false { s with value_stack := rest }) ∧
    (∀ f n rest, n ≠ 0 → s.value_stack = .Function f :: .Data n :: rest →
      runCallIf s = callFunction f { s with value_stack := rest }) := by
  refine ⟨?_, ?_, ?_, ?_⟩
  · intro n rest hv
    simp [runCallIf, popFunctionFromStack, hv]
  · intro f g rest hv
    simp [runCallIf, popFunctionFromStack, popDataFromStack, hv]
  · intro f rest hv
    simp [runCallIf, popFunctionFromStack, popDataFromStack, hv]
  · intro f n rest hn hv
    simp [runCallIf, popFunctionFromStack, popDataFromStack, hv, hn]

theorem C1_callif_dispatch_witness :
    runCallIf ⟨[.Data 7], [], [], [], [], [], []⟩ =
      .err .typeMismatch ⟨[], [], [], [], [], [], []⟩ ∧
    runCallIf ⟨[.Function "f", .Function "g"], [], [], [], [], [], []⟩ =
      .err .typeMismatch ⟨[], [], [], [], [], [], []⟩ ∧
    runCallIf ⟨[.Function "f", .Data 0, .Data 9], [], [], [], [], [], []⟩ =
      .ok false ⟨[.Data 9], [], [], [], [], [], []⟩ ∧
    runCallIf ⟨[.Function "f", .Data 2], [], [], [], [], [], []⟩ =
      callFunction "f" ⟨[], [], [], [], [], [], []⟩ :=
  ⟨(C1_callif_dispatch _).1 7 [] rfl,
   (C1_callif_dispatch _).2.1 "f" "g" [] rfl,
   (C1_callif_dispatch _).2.2.1 "f" [.Data 9] rfl,
   (C1_callif_dispatch _).2.2.2 "f" 2 [] (by decide) rfl⟩

/-- C2: calling a user-defined function of arity `n` pops exactly `n`
words off `value_stack` into `args_array` in pop order (`args_array[0]`
is the word that was nearest the top of the stack at call time) and
pushes the function body's instructions onto `instruction_stack` in
reverse order, so the trampoline executes them in their original order
(the new pending prefix is exactly `body`). -/
theorem C2_custom_call_binds_args (f : String) (s : RState)
    (argCount : Nat) (body : List Instruction)
    (hf : strStartsWithUU f = false)
    (hl : s.function_table.lookup f = some (argCount, body))
    (hn : argCount ≤ s.value_stack.length) :
    callFunction f s = .ok false
      { s with value_stack := s.value_stack.drop argCount,
               args_array := s.value_stack.take argCount,
               instruction_stack := body ++ s.instruction_stack } := by
  have harg : argCount ≤
      (RState.value_stack { s with args_array := ([] : List Word) }).length := hn
  have hpop := popArgsLoop_ok argCount { s with args_array := ([] : List Word) } harg
  simp only [callFunction, hf, Bool.false_eq_true, if_false, callCustomFunction, hl, hpop]
  simp [pushBodyRev_eq]

theorem C2_custom_call_binds_args_witness :
    strStartsWithUU "g" = false ∧
    callFunction "g"
      ⟨[.Data 2, .Data 1], [("g", (2, [.PushArg 0]))], [], [.Data 9], [], [], []⟩ =
      .ok false
        ⟨[], [("g", (2, [.PushArg 0]))], [.PushArg 0], [.Data 2, .Data 1], [], [], []⟩ :=
  ⟨rfl,
   C2_custom_call_binds_args "g"
     ⟨[.Data 2, .Data 1], [("g", (2, [.PushArg 0]))], [], [.Data 9], [], [], []⟩
     2 [.PushArg 0] rfl rfl (by decide)⟩

/-- C3: `args_array` is cleared at the start of every function call
(built-in or user-defined), so the entire outcome of a call is
independent of whatever `args_array` held before it; concretely, after a
call binding `args_array[0]`, a later call to an arity-0 function whose
body executes `PushArg 0` fails `Undefined` instead of observing the
earlier binding. -/
theorem C3_no_args_leakage (f : String) (s : RState) (a : List Word) :
    callFunction f { s with args_array := a } = callFunction f s ∧
    run 9 .CallIf
      (⟨[.Function "bar", .Data 1, .Data 123],
        [("foo", (1, [])), ("bar", (0, [.PushArg 0]))], [], [.Data 456],
        [], [], []⟩ : RState) =
      .err .undefined
        ⟨[.Data 123], [("foo", (1, [])), ("bar", (0, [.PushArg 0]))], [], [],
         [], [], []⟩ :=
  ⟨rfl, rfl⟩

/-- C4: whenever executing a pending instruction fails, `run` discards all
remaining entries of `instruction_stack` (leaving it empty) and
propagates the error, while `value_stack` mutations already performed
before the failing step are not rolled back and `function_table` is
untouched by the abort: the final state agrees with the non-discarding
reference execution `runNC` on every component except the emptied
`instruction_stack`. -/
theorem C4_error_discards_pending :
    (∀ fuel i s e s'', runNC fuel i s = .err e s'' →
      run fuel i s = .err e { s'' with instruction_stack := [] }) ∧
    (∀ fuel i s e s', run fuel i s = .err e s' →
      s'.instruction_stack = [] ∧
      ∃ s'', runNC fuel i s = .err e s'' ∧
        s'.value_stack = s''.value_stack ∧
        s'.function_table = s''.function_table ∧
        s'.args_array = s''.args_array) := by
  constructor
  · intro fuel i s e s'' h
    exact runLoopF_err_of_nc fuel _ e s'' h
  · intro fuel i s e s' h
    obtain ⟨s'', hnc, rfl⟩ := runLoopF_err_to_nc fuel _ e s' h
    exact ⟨rfl, s'', hnc, rfl, rfl, rfl⟩

theorem C4_error_discards_pending_witness :
    run 9 .CallIf
      (⟨[.Function "evil", .Data 1],
        [("evil", (0, [.PushData 123, .PushArg 1, .PushData 456]))],
        [], [], [], [], []⟩ : RState) =
      .err .undefined
        ⟨[.Data 123],
         [("evil", (0, [.PushData 123, .PushArg 1, .PushData 456]))],
         [], [], [], [], []⟩ :=
  C4_error_discards_pending.1 9 .CallIf
    ⟨[.Function "evil", .Data 1],
     [("evil", (0, [.PushData 123, .PushArg 1, .PushData 456]))],
     [], [], [], [], []⟩
    .undefined
    ⟨[.Data 123],
     [("evil", (0, [.PushData 123, .PushArg 1, .PushData 456]))],
     [.PushData 456], [], [], [], []⟩
    rfl

/-- C5: when an `Exit` instruction is executed (it is the next pending
instruction, possibly in the middle of a nested call chain), `run`'s loop
stops immediately reporting exit = true, preserving every other state
component as is (all `value_stack` mutations performed so far) and
leaving the instructions still below it on `instruction_stack` untouched:
they are neither executed nor discarded. -/
theorem C5_exit_halts (fuel : Nat) (s : RState) (rest : List Instruction)
    (h : s.instruction_stack = .Exit :: rest) :
    runLoopF (fuel + 1) s = .ok true { s with instruction_stack := rest } := by
  rw [runLoopF, h]
  rfl

theorem C5_exit_halts_witness :
    runLoopF 5
      (⟨[.Data 123],
        [("ext", (0, [.PushData 123, .Exit, .PushData 456]))],
        [.Exit, .PushData 456], [], [], [], []⟩ : RState) =
      .ok true
        ⟨[.Data 123],
         [("ext", (0, [.PushData 123, .Exit, .PushData 456]))],
         [.PushData 456], [], [], [], []⟩ :=
  C5_exit_halts 4
    ⟨[.Data 123],
     [("ext", (0, [.PushData 123, .Exit, .PushData 456]))],
     [.Exit, .PushData 456], [], [], [], []⟩
    [.PushData 456] rfl

/-- C6 counterexample: on the one-element stack `[Data 5]`, `CallIf`
fails with a type error (the `Function`-expecting pop finds a `Data`
word), not with stack underflow, refuting the claim that every stack of
fewer than two words gives `StackUnderflow`. -/
theorem C6_single_data_counterexample :
    runCallIf ⟨[.Data 5], [], [], [], [], [], []⟩ =
      .err .typeMismatch ⟨[], [], [], [], [], [], []⟩ ∧
    RErr.typeMismatch ≠ RErr.underflow :=
  ⟨rfl, by decide⟩

/-- C6 (amended): executing `CallIf` on a `value_stack` holding fewer than
two words fails: with `StackUnderflow` on the empty stack and on a
one-element stack whose word is a `Function`; with a type error on a
one-element stack whose word is `Data`. -/
theorem C6_short_stack (s : RState) :
    (s.value_stack = [] → runCallIf s = .err .underflow s) ∧
    (∀ f, s.value_stack = [.Function f] →
      runCallIf s = .err .underflow { s with value_stack := [] }) ∧
    (∀ n, s.value_stack = [.Data n] →
      runCallIf s = .err .typeMismatch { s with value_stack := [] }) := by
  refine ⟨?_, ?_, ?_⟩
  · intro hv
    simp [runCallIf, popFunctionFromStack, hv]
  · intro f hv
    simp [runCallIf, popFunctionFromStack, popDataFromStack, hv]
  · intro n hv
    simp [runCallIf, popFunctionFromStack, hv]

theorem C6_short_stack_witness :
    runCallIf ⟨[], [], [], [], [], [], []⟩ =
      .err .underflow ⟨[], [], [], [], [], [], []⟩ ∧
    runCallIf ⟨[.Function "h"], [], [], [], [], [], []⟩ =
      .err .underflow ⟨[], [], [], [], [], [], []⟩ ∧
    runCallIf ⟨[.Data 3], [], [], [], [], [], []⟩ =
      .err .typeMismatch ⟨[], [], [], [], [], [], []⟩ :=
  ⟨(C6_short_stack _).1 rfl,
   (C6_short_stack _).2.1 "h" rfl,
   (C6_short_stack _).2.2 3 rfl⟩

end Plates
